import Mathlib

/-!
Verification of the heading-id / table-of-contents logic of
`src/src/extension.ts` (auto-header-ids editor extension).

The TypeScript source is shallowly embedded below.  JavaScript strings are
modelled as `String` / `List Char`; the regex scans used by the three
commands are modelled by executable matchers that follow the semantics of
the concrete regexes appearing in the source; the process-wide `usedIds`
set is modelled as an explicit `List String` threaded through the
slug-generation functions.
-/

namespace HtmlAutoHeaderIds

/-! ### Character-list utilities (JavaScript string primitives) -/

/-- `p` is a prefix of `s` (character-exact). -/
def isPrefixL : List Char → List Char → Bool
  | [], _ => true
  | _ :: _, [] => false
  | p :: ps, c :: cs => p == c && isPrefixL ps cs

/-- JavaScript `String.prototype.includes`: case-sensitive substring test. -/
def containsL (pat : List Char) : List Char → Bool
  | [] => isPrefixL pat []
  | c :: rest => isPrefixL pat (c :: rest) || containsL pat rest

/-- Case-insensitive prefix test (used for the `i`-flagged regex literals). -/
def ciPrefixL : List Char → List Char → Bool
  | [], _ => true
  | _ :: _, [] => false
  | p :: ps, c :: cs => (p.toLower == c.toLower) && ciPrefixL ps cs

/-- Case-insensitive substring test. -/
def ciContainsL (pat : List Char) : List Char → Bool
  | [] => ciPrefixL pat []
  | c :: rest => ciPrefixL pat (c :: rest) || ciContainsL pat rest

/-- JavaScript `s.replace(/pat/g, rep)` for a non-empty literal pattern
`pat`: replace every (leftmost, non-overlapping) occurrence.  Fuel-based
recursion; the entry point `replaceAll` supplies fuel `s.length`, which is
sufficient because every step consumes at least one character. -/
def replaceAllAux (pat rep : List Char) : Nat → List Char → List Char
  | 0, s => s
  | _ + 1, [] => []
  | fuel + 1, c :: s =>
    if isPrefixL pat (c :: s) then rep ++ replaceAllAux pat rep fuel (s.drop (pat.length - 1))
    else c :: replaceAllAux pat rep fuel s

def replaceAll (pat rep s : List Char) : List Char :=
  replaceAllAux pat rep s.length s

/-- JavaScript `s.replace(/P+/g, r)` for a character class `P`: every
maximal run of characters satisfying `p` is replaced by the single
character `r`.  (Runs of length one are also "collapsed", to themselves,
matching the `\s+` → `'-'` and `--+` → `'-'` rewrites of `slugify`: for
the hyphen rewrite a run of length one is replaced by itself, which is
exactly what leaving it alone produces.)  Fuel-based; entry point supplies
fuel `s.length`. -/
def collapseRunsAux (p : Char → Bool) (r : Char) : Nat → List Char → List Char
  | 0, s => s
  | _ + 1, [] => []
  | fuel + 1, c :: s =>
    if p c then r :: collapseRunsAux p r fuel (s.dropWhile p)
    else c :: collapseRunsAux p r fuel s

def collapseRuns (p : Char → Bool) (r : Char) (s : List Char) : List Char :=
  collapseRunsAux p r s.length s

/-- JavaScript `String.prototype.trim` (the headings in the claims are
ASCII; whitespace is modelled by `Char.isWhitespace`). -/
def trimL (s : List Char) : List Char :=
  ((s.dropWhile Char.isWhitespace).reverse.dropWhile Char.isWhitespace).reverse

/-! ### The slug generator: `slugify`, src/src/extension.ts lines 195-221 -/

/-- Character class `[\w-]` of the regex `/[^\w-]+/g` (word characters and
hyphen), written on code points. -/
def isWordHyphen (c : Char) : Bool :=
  (97 ≤ c.toNat && c.toNat ≤ 122) || (65 ≤ c.toNat && c.toNat ≤ 90) ||
    (48 ≤ c.toNat && c.toNat ≤ 57) || c == '_' || c == '-'

/-- Steps 1-7 of `slugify` (lines 196-211): entity decoding, lowercasing,
trimming, whitespace-to-hyphen, removal of non-word characters, hyphen-run
collapsing, leading/trailing hyphen stripping, truncation to 15
characters with removal of a trailing hyphen left by truncation.  This is
the "base slug" before the uniqueness loop. -/
def slugBase (text : String) : String :=
  let decodedText := replaceAll "&amp;".data "&".data (replaceAll "&nbsp;".data " ".data text.data)
  let s1 := decodedText.map Char.toLower
  let s2 := trimL s1
  let s3 := collapseRuns Char.isWhitespace '-' s2
  let s4 := s3.filter isWordHyphen
  let s5 := collapseRuns (fun c => c == '-') '-' s4
  let s6 := ((s5.dropWhile (fun c => c == '-')).reverse.dropWhile (fun c => c == '-')).reverse
  let s7 := if 15 < s6.length then
              let t := s6.take 15
              if t.getLast? == some '-' then t.dropLast else t
            else s6
  ⟨s7⟩

/-- The sequence of identifiers tried by the uniqueness loop (lines
213-218): the base slug itself, then `slug-1`, `slug-2`, ... -/
def candidate (slug : String) : Nat → String
  | 0 => slug
  | k + 1 => slug ++ "-" ++ Nat.repr (k + 1)

/-- The `while (usedIds.has(uniqueSlug))` loop: find the index of the
first candidate not in the used set.  Fuel-based; fuel `used.length + 1`
always suffices (pigeonhole over the distinct candidates), which is proved
below. -/
def findFree (used : List String) (slug : String) : Nat → Nat → Nat
  | 0, k => k
  | fuel + 1, k => if used.contains (candidate slug k) then findFree used slug fuel (k + 1) else k

/-- `slugify(text)` with the `usedIds` set passed explicitly: the returned
unique slug. -/
def slugify (used : List String) (text : String) : String :=
  candidate (slugBase text) (findFree used (slugBase text) (used.length + 1) 0)

/-- One identifier-assignment run over a list of heading texts: the used
set starts empty (`usedIds.clear()`, line 16) and each issued slug is
added to it (`usedIds.add`, line 219). -/
def slugifyRunAux (used : List String) : List String → List String
  | [] => []
  | t :: ts => slugify used t :: slugifyRunAux (slugify used t :: used) ts

def slugifyRun (texts : List String) : List String :=
  slugifyRunAux [] texts

/-- The property the specification asserts of every generated slug
(claim C3, written from the spec's words): length at most 15, only
lowercase letters, digits, underscore and hyphen, and no hyphen at either
end. -/
def isSlugChar (c : Char) : Bool :=
  (97 ≤ c.toNat && c.toNat ≤ 122) || (48 ≤ c.toNat && c.toNat ≤ 57) || c == '_' || c == '-'

def slugClaimOk (s : String) : Bool :=
  s.length ≤ 15 && s.data.all isSlugChar &&
    s.data.head? != some '-' && s.data.getLast? != some '-'

/-- Decimal value of a digit string; used to verify that `Nat.repr` (the
stringification of the uniqueness counter) is injective. -/
def decVal (s : List Char) : Nat :=
  s.foldl (fun n c => n * 10 + (c.toNat - 48)) 0

/-- "No two adjacent hyphens": the invariant established by the `--+` → `-`
rewrite, which justifies dropping a single trailing hyphen after
truncation. -/
def noDH : List Char → Bool
  | [] => true
  | [_] => true
  | a :: b :: t => !(a == '-' && b == '-') && noDH (b :: t)

/-! ### The heading scanner

The three commands scan the document with the regexes (flags `gi`)
  `<h(L)([^>]*)>([\s\S]*?)<\/h\1>`                      (addIds, markExistingIds)
  `<h(L)([^>]*)id="([^"]*)"([^>]*)>([\s\S]*?)<\/h\1>`   (createTOC)
where `L` is the alternation of the configured level strings (the empty
group when the configured list is empty).  They are modelled by executable
matchers; `matchAll` is modelled by a left-to-right scan that restarts
after each match. -/

structure HMatch where
  index : Nat
  tagChar : Char        -- the original letter matched by the case-insensitive `h`
  tagType : List Char   -- capture 1 (the level; empty when the level list is empty)
  attrs : List Char     -- capture 2
  inner : List Char     -- capture 3
  closeTag : List Char  -- the original text of the matched closing tag
  deriving DecidableEq

def HMatch.full (m : HMatch) : List Char :=
  '<' :: m.tagChar :: (m.tagType ++ m.attrs ++ '>' :: (m.inner ++ m.closeTag))

/-- The alternation of the configured level literals: the first alternative
that is a prefix of the input matches. -/
def pickAlt : List String → List Char → Option (List Char × List Char)
  | [], _ => none
  | l :: ls, s => if isPrefixL l.data s then some (l.data, s.drop l.data.length) else pickAlt ls s

/-- The group `(l1|l2|...)` built by `headersToProcess.join('|')`: with an
empty configured list the pattern degenerates to the empty group `()`,
which matches the empty string. -/
def levelAlt (levels : List String) (s : List Char) : Option (List Char × List Char) :=
  match levels with
  | [] => some ([], s)
  | _ :: _ => pickAlt levels s

/-- The closing-tag literal `</h` ++ level ++ `>`. -/
def closeLit (lvl : List Char) : List Char :=
  '<' :: '/' :: 'h' :: (lvl ++ ['>'])

/-- Lazy content `([\s\S]*?)` up to the first (case-insensitive) occurrence
of the closing tag: returns (inner content, original closing-tag text,
rest after the closing tag), or `none` when no closing tag occurs. -/
def findClose (lvl : List Char) : List Char → Option (List Char × List Char × List Char)
  | [] => none
  | c :: s =>
    if ciPrefixL (closeLit lvl) (c :: s) then
      some ([], (c :: s).take (closeLit lvl).length, (c :: s).drop (closeLit lvl).length)
    else
      match findClose lvl s with
      | some (inner, cl, rest) => some (c :: inner, cl, rest)
      | none => none

/-- Attempt to match the open-mode heading regex at the start of `s`:
`<` then case-insensitive `h`, the level group, the greedy `[^>]*`
attribute run, `>`, and lazy content up to the matching closing tag. -/
def matchAt (levels : List String) : List Char → Option (HMatch × List Char)
  | '<' :: c1 :: rest1 =>
    if c1.toLower == 'h' then
      match levelAlt levels rest1 with
      | some (lvl, rest2) =>
        match rest2.dropWhile (fun c => c != '>') with
        | '>' :: rest4 =>
          match findClose lvl rest4 with
          | some (inner, cl, rest5) =>
            some ({ index := 0, tagChar := c1, tagType := lvl,
                    attrs := rest2.takeWhile (fun c => c != '>'),
                    inner := inner, closeTag := cl }, rest5)
          | none => none
        | _ => none
      | none => none
    else none
  | _ => none

/-- `matchAll` for the open-mode heading regex: left-to-right scan emitting
non-overlapping matches with their indices.  Fuel-based; fuel = remaining
length suffices because every step consumes at least one character. -/
def scanAux (levels : List String) : Nat → Nat → List Char → List HMatch
  | 0, _, _ => []
  | _ + 1, _, [] => []
  | fuel + 1, pos, c :: s =>
    match matchAt levels (c :: s) with
    | some (m, rest) =>
      { m with index := pos } :: scanAux levels fuel (pos + m.full.length) rest
    | none => scanAux levels fuel (pos + 1) s

def headerScan (levels : List String) (text : String) : List HMatch :=
  scanAux levels text.data.length 0 text.data

/-! ### Shared text helpers of the commands -/

/-- An edit handed to the editor: replace `[startOff, endOff)` with
`newText`. -/
structure Edit where
  startOff : Nat
  endOff : Nat
  newText : List Char
  deriving DecidableEq

/-- `s.replace(/<[^>]*>/g, '')` (lines 37 and 150): a `<` followed
(anywhere later) by a `>` starts a match that extends to the first `>`;
a `<` with no later `>` matches nothing and is kept. -/
def stripTagsAux : Nat → List Char → List Char
  | 0, s => s
  | _ + 1, [] => []
  | fuel + 1, c :: s =>
    if c == '<' && s.any (fun x => x == '>') then
      stripTagsAux fuel ((s.dropWhile (fun x => x != '>')).drop 1)
    else c :: stripTagsAux fuel s

def stripTags (s : List Char) : List Char := stripTagsAux s.length s

/-- `headerText.replace(/<[^>]*>/g, '').trim()`. -/
def cleanText (s : List Char) : List Char := trimL (stripTags s)

/-- Apply edits to the document (the editor applies each `Replace` against
the offsets of the original text; the commands emit edits from the last
match to the first, so folding in emission order is exact). -/
def applyEdit (text : List Char) (e : Edit) : List Char :=
  text.take e.startOff ++ e.newText ++ text.drop e.endOff

def applyEdits (text : List Char) (edits : List Edit) : List Char :=
  edits.foldl applyEdit text

/-! ### Command 1: addIds (lines 8-54) -/

/-- The replacement built on line 39: the tag is rebuilt with a literal
lowercase `h` and the captured level, the original attributes plus the new
id attribute, the original inner content, and a rebuilt closing tag. -/
def addIdReplacement (m : HMatch) (id : String) : List Char :=
  "<h".data ++ m.tagType ++ m.attrs ++ " id=\"".data ++ id.data ++ "\">".data ++
    m.inner ++ "</h".data ++ m.tagType ++ ">".data

/-- The loop of lines 26-46 over the matches in last-to-first order,
threading the `usedIds` set (cleared at line 16): matches whose attributes
contain `id=` are skipped, every other match gets a `Replace` edit. -/
def addIdsLoop : List HMatch → List String → List Edit
  | [], _ => []
  | m :: ms, used =>
    if containsL "id=".data m.attrs then addIdsLoop ms used
    else
      let id := slugify used ⟨cleanText m.inner⟩
      { startOff := m.index, endOff := m.index + m.full.length,
        newText := addIdReplacement m id } :: addIdsLoop ms (id :: used)

def addIdsEdits (levels : List String) (text : String) : List Edit :=
  addIdsLoop (headerScan levels text).reverse []

/-! ### Command 2: markExistingIds (lines 57-121) -/

/-- First-match context of `/class="([^"]*)"/i` in a string, as used by
both `attributes.match(classRegex)` and
`attributes.replace(classRegex, ...)`. -/
structure RMatch where
  pre : List Char
  matched : List Char
  group1 : List Char
  post : List Char
  deriving DecidableEq

def classMatchAt : List Char → Option RMatch
  | [] => none
  | c :: s =>
    if ciPrefixL "class=\"".data (c :: s) then
      match ((c :: s).drop 7).dropWhile (fun x => x != '"') with
      | '"' :: rest =>
        some { pre := [],
               matched := (c :: s).take (7 + (((c :: s).drop 7).takeWhile (fun x => x != '"')).length + 1),
               group1 := ((c :: s).drop 7).takeWhile (fun x => x != '"'),
               post := rest }
      | _ =>
        match classMatchAt s with
        | some r => some { r with pre := c :: r.pre }
        | none => none
    else
      match classMatchAt s with
      | some r => some { r with pre := c :: r.pre }
      | none => none

/-- `$`-substitution performed by JavaScript `String.prototype.replace` on
the replacement template, for a regex with exactly one capture group:
`$$` is a literal dollar, `$&` inserts the matched text, dollar-backquote
and dollar-quote insert the text before / after the match, `$1` (also
written `$01`) inserts the capture, and any other `$` sequence is kept
literally. -/
def expandTemplate (rm : RMatch) : List Char → List Char
  | [] => []
  | ['$'] => ['$']
  | '$' :: '0' :: '1' :: cs => rm.group1 ++ expandTemplate rm cs
  | '$' :: c :: cs =>
    if c == '$' then '$' :: expandTemplate rm cs
    else if c == '&' then rm.matched ++ expandTemplate rm cs
    else if c == Char.ofNat 96 then rm.pre ++ expandTemplate rm cs
    else if c == Char.ofNat 39 then rm.post ++ expandTemplate rm cs
    else if c == '1' then rm.group1 ++ expandTemplate rm cs
    else '$' :: c :: expandTemplate rm cs
  | c :: rest => c :: expandTemplate rm rest

/-- `attributes.replace(classRegex, tmpl)`: replace the first match of the
class regex, expanding `$`-patterns in the template; no match leaves the
string unchanged. -/
def replaceClass (attrs tmpl : List Char) : List Char :=
  match classMatchAt attrs with
  | some rm => rm.pre ++ expandTemplate rm tmpl ++ rm.post
  | none => attrs

/-- Lines 92-112: the replacement (if any) for one heading.  No `class=`
substring: a fresh `class="no-toc"` attribute is appended.  Otherwise, if
the class regex matches, `no-toc` is appended to the class list unless the
list already contains it (substring test); if the regex does not match
(`class=` present but no double-quoted value) no edit is emitted. -/
def markReplacement (m : HMatch) : Option (List Char) :=
  if !(containsL "class=".data m.attrs) then
    some ("<h".data ++ m.tagType ++ m.attrs ++ " class=\"no-toc\">".data ++ m.inner ++
      "</h".data ++ m.tagType ++ ">".data)
  else
    match classMatchAt m.attrs with
    | some cm =>
      some ("<h".data ++ m.tagType ++
        replaceClass m.attrs
          ("class=\"".data ++
            (if containsL "no-toc".data cm.group1 then cm.group1
             else cm.group1 ++ " no-toc".data) ++ "\"".data) ++
        ">".data ++ m.inner ++ "</h".data ++ m.tagType ++ ">".data)
    | none => none

def markLoop : List HMatch → List Edit
  | [] => []
  | m :: ms =>
    match markReplacement m with
    | some r =>
      { startOff := m.index, endOff := m.index + m.full.length, newText := r } :: markLoop ms
    | none => markLoop ms

def markEdits (levels : List String) (text : String) : List Edit :=
  markLoop (headerScan levels text).reverse

/-- The document text after one run of the marking command. -/
def markNoTocText (levels : List String) (text : String) : String :=
  ⟨applyEdits text.data (markEdits levels text)⟩

/-! ### Command 3: createTOC (lines 124-184) -/

structure TMatch where
  index : Nat
  tagChar : Char
  tagType : List Char  -- capture 1
  attrs1 : List Char   -- capture 2
  idLit : List Char    -- the original text matched by the literal `id="`
  idAttr : List Char   -- capture 3
  attrs2 : List Char   -- capture 4
  inner : List Char    -- capture 5
  closeTag : List Char
  deriving DecidableEq

def TMatch.full (m : TMatch) : List Char :=
  '<' :: m.tagChar :: (m.tagType ++ m.attrs1 ++ m.idLit ++ m.idAttr ++ '"' ::
    (m.attrs2 ++ '>' :: (m.inner ++ m.closeTag)))

/-- One backtracking attempt for `([^>]*)id="([^"]*)"([^>]*)>` with the
first group bound to `s.take k`: the group may not contain `>`, the
literal `id="` (case-insensitive) must follow, then the greedy non-quote
id value, its closing quote, the greedy non-`>` trailing attributes and
the tag-closing `>`. -/
def tryIdSplit (s : List Char) (k : Nat) :
    Option (List Char × List Char × List Char × List Char) :=
  if (s.take k).any (fun c => c == '>') then none
  else if ciPrefixL "id=\"".data (s.drop k) then
    match (s.drop (k + 4)).dropWhile (fun c => c != '"') with
    | '"' :: rest2 =>
      match rest2.dropWhile (fun c => c != '>') with
      | '>' :: rest3 =>
        some (s.take k, (s.drop (k + 4)).takeWhile (fun c => c != '"'),
          rest2.takeWhile (fun c => c != '>'), rest3)
      | _ => none
    | _ => none
  else none

/-- One attempt including the content and closing tag (the regex engine
backtracks into the attribute split when no closing tag follows). -/
def tocTryAt (lvl s : List Char) (k : Nat) :
    Option (List Char × List Char × List Char × List Char × List Char × List Char × List Char) :=
  match tryIdSplit s k with
  | some (a1, idv, a2, rest3) =>
    match findClose lvl rest3 with
    | some (inner, cl, rest) => some (a1, (s.drop k).take 4, idv, a2, inner, cl, rest)
    | none => none
  | none => none

def tocBacktrack (lvl s : List Char) :
    List Nat →
    Option (List Char × List Char × List Char × List Char × List Char × List Char × List Char)
  | [] => none
  | k :: ks =>
    match tocTryAt lvl s k with
    | some r => some r
    | none => tocBacktrack lvl s ks

/-- The attribute-and-id part of the TOC regex: the greedy first `[^>]*`
tries the longest split first, i.e. the LAST `id="` occurrence wins. -/
def tocAttrsMatch (lvl s : List Char) :
    Option (List Char × List Char × List Char × List Char × List Char × List Char × List Char) :=
  tocBacktrack lvl s ((List.range ((s.takeWhile (fun c => c != '>')).length + 1)).reverse)

def tocMatchAt (levels : List String) : List Char → Option (TMatch × List Char)
  | '<' :: c1 :: rest1 =>
    if c1.toLower == 'h' then
      match levelAlt levels rest1 with
      | some (lvl, rest2) =>
        match tocAttrsMatch lvl rest2 with
        | some (a1, idl, idv, a2, inner, cl, rest) =>
          some ({ index := 0, tagChar := c1, tagType := lvl, attrs1 := a1, idLit := idl,
                  idAttr := idv, attrs2 := a2, inner := inner, closeTag := cl }, rest)
        | none => none
      | none => none
    else none
  | _ => none

def tocScanAux (levels : List String) : Nat → Nat → List Char → List TMatch
  | 0, _, _ => []
  | _ + 1, _, [] => []
  | fuel + 1, pos, c :: s =>
    match tocMatchAt levels (c :: s) with
    | some (m, rest) =>
      { m with index := pos } :: tocScanAux levels fuel (pos + m.full.length) rest
    | none => tocScanAux levels fuel (pos + 1) s

def tocScan (levels : List String) (text : String) : List TMatch :=
  tocScanAux levels text.data.length 0 text.data

/-- `'  '.repeat(k)`. -/
def indentStr (k : Nat) : List Char := List.replicate (2 * k) ' '

/-- `while (currentLevel < lastLevel) { push(indent + '</ul>'); lastLevel-- }`. -/
def closeWhile (cur : Nat) : Nat → List (List Char)
  | 0 => []
  | last + 1 =>
    if cur < last + 1 then (indentStr (last + 1) ++ "</ul>".data) :: closeWhile cur last
    else []

/-- `while (currentLevel > lastLevel) { push(indent + '<ul>'); lastLevel++ }`,
written with explicit fuel `cur - last` (the exact number of iterations). -/
def openWhileAux (cur : Nat) : Nat → Nat → List (List Char)
  | 0, _ => []
  | f + 1, last =>
    if last < cur then (indentStr last ++ "<ul>".data) :: openWhileAux cur f (last + 1)
    else []

def openWhile (cur last : Nat) : List (List Char) :=
  openWhileAux cur (cur - last) last

/-- JavaScript `parseInt` on the digit strings captured by the scanner
(the captures are single digits whenever the configured level list is
non-empty). -/
def parseIntNat (s : List Char) : Nat :=
  decVal (s.takeWhile Char.isDigit)

def tocItem (level : Nat) (id txt : List Char) : List Char :=
  indentStr level ++ "<li><a href=\"#".data ++ id ++ "\">".data ++ txt ++ "</a></li>".data

/-- The TOC construction loop (lines 140-170).  A heading whose combined
attribute captures contain the exact substring `class="no-toc"` is skipped
(`continue`); otherwise levels are closed / opened to reach the heading's
level and a linked item is emitted; after the loop all open levels are
closed. -/
def tocLoop : List TMatch → Nat → List (List Char)
  | [], lastLevel => closeWhile 0 lastLevel
  | m :: ms, lastLevel =>
    if containsL "class=\"no-toc\"".data (m.attrs1 ++ m.attrs2) then tocLoop ms lastLevel
    else
      closeWhile (parseIntNat m.tagType) lastLevel ++
        openWhile (parseIntNat m.tagType) lastLevel ++
        [tocItem (parseIntNat m.tagType) m.idAttr (cleanText m.inner)] ++
        tocLoop ms (parseIntNat m.tagType)

def joinLines : List (List Char) → List Char
  | [] => []
  | [l] => l
  | l :: ls => l ++ '\n' :: joinLines ls

/-- The `createTOC` command: `none` models the early return (nothing
inserted) when no id-carrying heading is found; otherwise the TOC text to
insert at the cursor. -/
def createTOCText (levels : List String) (text : String) : Option String :=
  match tocScan levels text with
  | [] => none
  | ms => some ⟨joinLines (tocLoop ms 0)⟩

/-- `getHeadersToProcess` (lines 189-193): the configured list filtered by
`^[1-6]$`; a missing / non-array configuration yields the default
`['1', '2']`. -/
def getHeadersToProcess (configured : Option (List String)) : List String :=
  match configured with
  | some headers =>
    headers.filter (fun h =>
      match h.data with
      | [c] => decide ('1' ≤ c ∧ c ≤ '6')
      | _ => false)
  | none => ["1", "2"]

/-- Suffix test on character lists (used to classify emitted TOC lines as
list-openers / list-closers). -/
def isSuffixL (pat s : List Char) : Bool := isPrefixL pat.reverse s.reverse

/-- The replacement text claim C9 predicts for an id-assignment edit: the
ORIGINAL opening tag with the id attribute appended after the existing
attributes, followed by the ORIGINAL inner content and the ORIGINAL
closing tag, character for character. -/
def specIdReplacement (m : HMatch) (id : String) : List Char :=
  '<' :: m.tagChar :: (m.tagType ++ m.attrs ++ " id=\"".data ++ id.data ++ "\">".data ++
    m.inner ++ m.closeTag)

/-- A plain lowercase heading match at a given level carrying a given id
(used to state the concrete TOC nesting examples of claim C5). -/
def plainT (lvl id : String) : TMatch :=
  { index := 0, tagChar := 'h', tagType := lvl.data, attrs1 := [' '], idLit := "id=\"".data,
    idAttr := id.data, attrs2 := [], inner := id.data,
    closeTag := ("</h".data ++ lvl.data ++ ">".data) }

/-! ### Injectivity of `Nat.repr` and freshness of the uniqueness loop -/

theorem digitChar_sub {m : Nat} (h : m < 10) : (Nat.digitChar m).toNat - 48 = m := by
  interval_cases m <;> rfl

theorem toDigitsCore_eq_toDigits (n : Nat) :
    ∀ (fuel : Nat) (ds : List Char), n < fuel →
      Nat.toDigitsCore 10 fuel n ds = Nat.toDigits 10 n ++ ds := by
  induction n using Nat.strong_induction_on with
  | _ n ih =>
    intro fuel ds hlt
    match fuel with
    | fuel + 1 =>
      rw [Nat.toDigits]
      simp only [Nat.toDigitsCore]
      by_cases h : n / 10 = 0
      · simp [h]
      · rw [if_neg h, if_neg h]
        have h10 : 10 ≤ n := by
          by_contra hx
          exact h (Nat.div_eq_of_lt (by omega))
        have hdiv : n / 10 < n := Nat.div_lt_self (by omega) (by omega)
        rw [ih (n / 10) hdiv fuel _ (by omega), ih (n / 10) hdiv n _ (by omega)]
        simp

theorem decVal_append_one (l : List Char) (d : Char) :
    decVal (l ++ [d]) = decVal l * 10 + (d.toNat - 48) := by
  simp [decVal, List.foldl_append]

theorem decVal_toDigits (n : Nat) : decVal (Nat.toDigits 10 n) = n := by
  induction n using Nat.strong_induction_on with
  | _ n ih =>
    rw [Nat.toDigits]
    simp only [Nat.toDigitsCore]
    by_cases h : n / 10 = 0
    · rw [if_pos h]
      have hs : (Nat.digitChar (n % 10)).toNat - 48 = n % 10 := digitChar_sub (by omega)
      simp only [decVal, List.foldl_cons, List.foldl_nil]
      omega
    · rw [if_neg h]
      have h10 : 10 ≤ n := by
        by_contra hx
        exact h (Nat.div_eq_of_lt (by omega))
      have hdiv : n / 10 < n := Nat.div_lt_self (by omega) (by omega)
      rw [toDigitsCore_eq_toDigits (n / 10) n _ (by omega)]
      rw [decVal_append_one, ih (n / 10) hdiv, digitChar_sub (show n % 10 < 10 by omega)]
      omega

theorem repr_inj {m n : Nat} (h : Nat.repr m = Nat.repr n) : m = n := by
  have hd := congrArg String.data h
  simp only [Nat.repr, List.asString] at hd
  have h2 := congrArg decVal hd
  rwa [decVal_toDigits, decVal_toDigits] at h2

theorem candidate_zero (slug : String) : candidate slug 0 = slug := rfl

theorem candidate_succ_length (slug : String) (k : Nat) :
    slug.length < (candidate slug (k + 1)).length := by
  show slug.length < (slug ++ "-" ++ Nat.repr (k + 1)).length
  rw [String.length_append, String.length_append]
  have h1 : ("-" : String).length = 1 := rfl
  omega

theorem candidate_injective (slug : String) : Function.Injective (candidate slug) := by
  intro i j h
  match i, j with
  | 0, 0 => rfl
  | 0, j + 1 =>
    have := candidate_succ_length slug j
    rw [← h, candidate_zero] at this
    omega
  | i + 1, 0 =>
    have := candidate_succ_length slug i
    rw [h, candidate_zero] at this
    omega
  | i + 1, j + 1 =>
    have hd := congrArg String.data h
    simp only [candidate, String.data_append] at hd
    have h3 := List.append_cancel_left hd
    have h4 : Nat.repr (i + 1) = Nat.repr (j + 1) := String.ext h3
    have := repr_inj h4
    omega

theorem exists_fresh (used : List String) (slug : String) :
    ∃ k, k ≤ used.length ∧ candidate slug k ∉ used := by
  by_contra hc
  push_neg at hc
  have hnd : ((List.range (used.length + 1)).map (candidate slug)).Nodup :=
    (List.nodup_range _).map (candidate_injective slug)
  have hcard : ((List.range (used.length + 1)).map (candidate slug)).toFinset.card
      = used.length + 1 := by
    rw [List.toFinset_card_of_nodup hnd, List.length_map, List.length_range]
  have hsub : ((List.range (used.length + 1)).map (candidate slug)).toFinset ⊆ used.toFinset := by
    intro x hx
    rw [List.mem_toFinset] at hx ⊢
    obtain ⟨k, hk, rfl⟩ := List.mem_map.mp hx
    exact hc k (by have := List.mem_range.mp hk; omega)
  have hle := Finset.card_le_card hsub
  have hl2 := List.toFinset_card_le used
  omega

theorem contains_eq_true_iff (used : List String) (s : String) :
    used.contains s = true ↔ s ∈ used := by
  constructor
  · exact fun h => List.mem_of_elem_eq_true h
  · exact fun h => List.elem_eq_true_of_mem h

theorem findFree_fresh (used : List String) (slug : String) :
    ∀ (fuel k : Nat), (∃ j, k ≤ j ∧ j < k + fuel ∧ candidate slug j ∉ used) →
      candidate slug (findFree used slug fuel k) ∉ used := by
  intro fuel
  induction fuel with
  | zero =>
    rintro k ⟨j, h1, h2, _⟩
    omega
  | succ f ih =>
    rintro k ⟨j, hj1, hj2, hj3⟩
    rw [findFree]
    by_cases hmem : used.contains (candidate slug k) = true
    · rw [if_pos hmem]
      apply ih
      have hkj : k ≠ j := by
        rintro rfl
        exact hj3 ((contains_eq_true_iff used _).mp hmem)
      exact ⟨j, by omega, by omega, hj3⟩
    · rw [if_neg hmem]
      intro hm
      exact hmem ((contains_eq_true_iff used _).mpr hm)

theorem slugify_not_mem (used : List String) (text : String) : slugify used text ∉ used := by
  obtain ⟨k, hk, hfree⟩ := exists_fresh used (slugBase text)
  exact findFree_fresh used (slugBase text) (used.length + 1) 0
    ⟨k, Nat.zero_le _, by omega, hfree⟩

theorem slugifyRunAux_spec : ∀ (texts used : List String),
    (slugifyRunAux used texts).Nodup ∧ ∀ s ∈ slugifyRunAux used texts, s ∉ used := by
  intro texts
  induction texts with
  | nil => simp [slugifyRunAux]
  | cons t ts ih =>
    intro used
    rw [slugifyRunAux]
    obtain ⟨ihn, ihm⟩ := ih (slugify used t :: used)
    refine ⟨List.nodup_cons.mpr ⟨fun hmem => ?_, ihn⟩, fun s hs => ?_⟩
    · exact (ihm _ hmem) (List.mem_cons_self _ _)
    · rcases List.mem_cons.mp hs with rfl | hs'
      · exact slugify_not_mem used t
      · exact fun hmem => (ihm s hs') (List.mem_cons_of_mem _ hmem)

/-- C2: within one identifier-assignment run (used-slug set cleared at the
start), the generated identifiers are pairwise distinct even for repeated
heading texts; in particular two headings titled "Intro" receive `intro`
and `intro-1` in that order. -/
theorem claim_C2 :
    (∀ texts : List String, (slugifyRun texts).Nodup) ∧
      slugifyRun ["Intro", "Intro"] = ["intro", "intro-1"] :=
  ⟨fun texts => (slugifyRunAux_spec texts []).1, by decide⟩

/-! ### Shape of the base slug (claims C3 and C4) -/

theorem toNat_ofNat_lt {n : Nat} (h : n < 55296) : (Char.ofNat n).toNat = n := by
  rw [Char.ofNat, dif_pos (Or.inl h)]
  rfl

theorem toLower_not_upper (c : Char) :
    ¬(65 ≤ (Char.toLower c).toNat ∧ (Char.toLower c).toNat ≤ 90) := by
  unfold Char.toLower
  simp only []
  split
  · rename_i h
    rw [toNat_ofNat_lt (by omega)]
    omega
  · rename_i h
    omega

theorem isSlugChar_of_wordHyphen_lower {c x : Char}
    (hw : isWordHyphen c = true) (hx : Char.toLower x = c) : isSlugChar c = true := by
  subst hx
  have hup := toLower_not_upper x
  simp only [isWordHyphen, Bool.or_eq_true, Bool.and_eq_true, decide_eq_true_eq,
    beq_iff_eq] at hw
  simp only [isSlugChar, Bool.or_eq_true, Bool.and_eq_true, decide_eq_true_eq, beq_iff_eq]
  tauto

theorem mem_collapseRunsAux {p : Char → Bool} {r : Char} :
    ∀ (fuel : Nat) (s : List Char) (c : Char), c ∈ collapseRunsAux p r fuel s → c = r ∨ c ∈ s := by
  intro fuel
  induction fuel with
  | zero => exact fun s c h => Or.inr h
  | succ f ih =>
    intro s c h
    match s with
    | [] => cases h
    | x :: s =>
      rw [collapseRunsAux] at h
      by_cases hp : p x = true
      · rw [if_pos hp] at h
        rcases List.mem_cons.mp h with rfl | h2
        · exact Or.inl rfl
        · rcases ih _ _ h2 with h3 | h3
          · exact Or.inl h3
          · exact Or.inr (List.mem_cons_of_mem _ ((List.dropWhile_sublist _).subset h3))
      · rw [if_neg hp] at h
        rcases List.mem_cons.mp h with rfl | h2
        · exact Or.inr (List.mem_cons_self _ _)
        · rcases ih _ _ h2 with h3 | h3
          · exact Or.inl h3
          · exact Or.inr (List.mem_cons_of_mem _ h3)

theorem head?_dropWhile (p : Char → Bool) :
    ∀ (l : List Char) {c : Char}, (l.dropWhile p).head? = some c → p c = false := by
  intro l
  induction l with
  | nil => intro c h; cases h
  | cons a t ih =>
    intro c h
    rw [List.dropWhile_cons] at h
    by_cases hp : p a = true
    · rw [if_pos hp] at h
      exact ih h
    · rw [if_neg hp] at h
      rw [List.head?_cons] at h
      cases h
      exact Bool.eq_false_iff.mpr hp

theorem collapseRunsAux_head? {p : Char → Bool} {r : Char}
    (fuel : Nat) (s : List Char) (h : ∀ c, s.head? = some c → p c = false) :
    (collapseRunsAux p r fuel s).head? = s.head? := by
  match fuel, s with
  | 0, s => rfl
  | f + 1, [] => rfl
  | f + 1, c :: s =>
    rw [collapseRunsAux, if_neg]
    · rfl
    · rw [h c rfl]
      simp

theorem noDH_tail {a : Char} {t : List Char} (h : noDH (a :: t) = true) : noDH t = true := by
  match t with
  | [] => rfl
  | b :: t' =>
    simp only [noDH, Bool.and_eq_true] at h
    exact h.2

theorem collapse_hyphen_noDH :
    ∀ (fuel : Nat) (s : List Char), s.length ≤ fuel →
      noDH (collapseRunsAux (fun c => c == '-') '-' fuel s) = true := by
  intro fuel
  induction fuel with
  | zero =>
    intro s hlen
    have : s = [] := List.eq_nil_of_length_eq_zero (by omega)
    subst this
    rfl
  | succ f ih =>
    intro s hlen
    match s with
    | [] => rfl
    | c :: s =>
      rw [collapseRunsAux]
      by_cases hc : (c == '-') = true
      · rw [if_pos hc]
        have hlen2 : (s.dropWhile (fun c => c == '-')).length ≤ f := by
          have := (List.dropWhile_sublist (l := s) (fun c => c == '-')).length_le
          simp only [List.length_cons] at hlen
          omega
        have hrec := ih _ hlen2
        cases hout : collapseRunsAux (fun c => c == '-') '-' f
            (s.dropWhile (fun c => c == '-')) with
        | nil => rfl
        | cons b t =>
          have hh := collapseRunsAux_head? (p := fun c => c == '-') (r := '-') f
            (s.dropWhile (fun c => c == '-'))
            (fun c hc => head?_dropWhile (fun c => c == '-') s hc)
          rw [hout] at hh hrec
          have hb : (b == '-') = false :=
            head?_dropWhile (fun c => c == '-') s hh.symm
          show (!('-' == '-' && b == '-') && noDH (b :: t)) = true
          simp [hb, hrec]
      · rw [if_neg hc]
        have hrec := ih s (by simp only [List.length_cons] at hlen; omega)
        cases hout : collapseRunsAux (fun c => c == '-') '-' f s with
        | nil => rfl
        | cons b t =>
          rw [hout] at hrec
          show (!(c == '-' && b == '-') && noDH (b :: t)) = true
          simp only [Bool.eq_false_iff] at hc
          simp [Bool.eq_false_iff.mpr hc, hrec]

theorem noDH_dropWhile (p : Char → Bool) :
    ∀ (l : List Char), noDH l = true → noDH (l.dropWhile p) = true := by
  intro l
  induction l with
  | nil => exact fun h => h
  | cons a t ih =>
    intro h
    rw [List.dropWhile_cons]
    by_cases hp : p a = true
    · rw [if_pos hp]
      exact ih (noDH_tail h)
    · rw [if_neg hp]
      exact h

theorem noDH_take : ∀ (l : List Char) (k : Nat), noDH l = true → noDH (l.take k) = true := by
  intro l
  induction l with
  | nil =>
    intro k _
    rw [List.take_nil]
    rfl
  | cons a t ih =>
    intro k h
    match k with
    | 0 => rfl
    | k + 1 =>
      rw [List.take_succ_cons]
      match t, k with
      | [], k =>
        rw [List.take_nil]
        rfl
      | b :: t', 0 => rfl
      | b :: t', k' + 1 =>
        rw [List.take_succ_cons]
        show (!(a == '-' && b == '-') && noDH (b :: List.take k' t')) = true
        simp only [noDH, Bool.and_eq_true] at h
        have h1 := h.1
        have h2 := h.2
        have h3 := ih (k' + 1) h2
        rw [List.take_succ_cons] at h3
        simp [h1, h3]

theorem noDH_last : ∀ (x l : List Char) (a b : Char),
    l = x ++ [a, b] → noDH l = true → ¬(a = '-' ∧ b = '-') := by
  intro x
  induction x with
  | nil =>
    rintro l a b rfl h ⟨rfl, rfl⟩
    simp only [List.nil_append, noDH] at h
    simp at h
  | cons c x ih =>
    rintro l a b rfl h
    exact ih _ a b rfl (noDH_tail h)

theorem dropLast_getLast_ne (t : List Char) (hnd : noDH t = true)
    (hlast : t.getLast? = some '-') :
    ∀ c, t.dropLast.getLast? = some c → c ≠ '-' := by
  intro c hc hcontra
  subst hcontra
  have ht : t ≠ [] := by rintro rfl; cases hlast
  have hd : t.dropLast ≠ [] := by intro h0; rw [h0] at hc; cases hc
  have e1 : t.dropLast ++ [t.getLast ht] = t := List.dropLast_append_getLast ht
  have e2 : t.dropLast.dropLast ++ [t.dropLast.getLast hd] = t.dropLast :=
    List.dropLast_append_getLast hd
  have hg1 : t.getLast ht = '-' := by
    have h1 := List.getLast?_eq_getLast t ht
    rw [hlast] at h1
    exact (Option.some.inj h1).symm
  have hg2 : t.dropLast.getLast hd = '-' := by
    have h1 := List.getLast?_eq_getLast _ hd
    rw [hc] at h1
    exact (Option.some.inj h1).symm
  have heq : t = t.dropLast.dropLast ++ ['-', '-'] := by
    rw [← e1, ← e2, hg1, hg2]
    simp
  exact noDH_last _ t '-' '-' heq hnd ⟨rfl, rfl⟩

theorem head?_take' {k : Nat} (hk : 0 < k) (l : List Char) :
    (l.take k).head? = l.head? := by
  match k, l with
  | k + 1, [] => rw [List.take_nil]
  | k + 1, a :: t => rw [List.take_succ_cons]; rfl

theorem prefix_head? {l1 l2 : List Char} (h : l1 <+: l2) {c : Char}
    (hc : l1.head? = some c) : l2.head? = some c := by
  obtain ⟨t, rfl⟩ := h
  cases l1 with
  | nil => cases hc
  | cons a t' => exact hc

theorem reverse_dropWhile_reverse_prefix (p : Char → Bool) (l : List Char) :
    (l.reverse.dropWhile p).reverse <+: l := by
  obtain ⟨t, ht⟩ := List.dropWhile_suffix (l := l.reverse) p
  refine ⟨t.reverse, ?_⟩
  rw [← List.reverse_append, ht, List.reverse_reverse]

theorem s6_props (d s4 s5 s6 : List Char)
    (h4 : s4 = (collapseRuns Char.isWhitespace '-' (trimL (d.map Char.toLower))).filter isWordHyphen)
    (h5 : s5 = collapseRuns (fun c => c == '-') '-' s4)
    (h6 : s6 = ((s5.dropWhile (fun c => c == '-')).reverse.dropWhile (fun c => c == '-')).reverse) :
    (∀ c ∈ s6, isSlugChar c = true) ∧ noDH s6 = true ∧
      (∀ c, s6.head? = some c → c ≠ '-') ∧ (∀ c, s6.getLast? = some c → c ≠ '-') := by
  subst h6 h5 h4
  set s4 := (collapseRuns Char.isWhitespace '-'
    (trimL (d.map Char.toLower))).filter isWordHyphen with hs4
  set s5 := collapseRuns (fun c => c == '-') '-' s4 with hs5
  have hn5 : noDH s5 = true := collapse_hyphen_noDH s4.length s4 (le_refl _)
  have hpre : ((s5.dropWhile (fun c => c == '-')).reverse.dropWhile
      (fun c => c == '-')).reverse <+: s5.dropWhile (fun c => c == '-') :=
    reverse_dropWhile_reverse_prefix _ _
  refine ⟨?_, ?_, ?_, ?_⟩
  · intro c hc
    rw [List.mem_reverse] at hc
    have hc2 := (List.dropWhile_sublist _).subset hc
    rw [List.mem_reverse] at hc2
    have hc3 := (List.dropWhile_sublist _).subset hc2
    rcases mem_collapseRunsAux _ _ c hc3 with rfl | hc4
    · rfl
    · rw [hs4, List.mem_filter] at hc4
      obtain ⟨hc5, hw⟩ := hc4
      rcases mem_collapseRunsAux _ _ c hc5 with rfl | hc6
      · rfl
      · have hc7 : c ∈ d.map Char.toLower := by
          unfold trimL at hc6
          rw [List.mem_reverse] at hc6
          have hc8 := (List.dropWhile_sublist _).subset hc6
          rw [List.mem_reverse] at hc8
          exact (List.dropWhile_sublist _).subset hc8
        obtain ⟨x, _, hxc⟩ := List.mem_map.mp hc7
        exact isSlugChar_of_wordHyphen_lower hw hxc
  · rw [List.prefix_iff_eq_take.mp hpre]
    exact noDH_take _ _ (noDH_dropWhile _ _ hn5)
  · intro c hc
    have hh2 := prefix_head? hpre hc
    have hfail := head?_dropWhile _ s5 hh2
    simpa using hfail
  · intro c hc
    rw [List.getLast?_reverse] at hc
    have hfail := head?_dropWhile _ _ hc
    simpa using hfail

theorem slugOk_of_props (s6 : List Char)
    (hchar : ∀ c ∈ s6, isSlugChar c = true)
    (hnd : noDH s6 = true)
    (hh : ∀ c, s6.head? = some c → c ≠ '-')
    (hl : ∀ c, s6.getLast? = some c → c ≠ '-') :
    slugClaimOk ⟨if 15 < s6.length then
        (let t := s6.take 15
         if t.getLast? == some '-' then t.dropLast else t)
      else s6⟩ = true := by
  have hok : ∀ x : List Char, x.length ≤ 15 → (∀ c ∈ x, isSlugChar c = true) →
      (∀ c, x.head? = some c → c ≠ '-') → (∀ c, x.getLast? = some c → c ≠ '-') →
      slugClaimOk ⟨x⟩ = true := by
    intro x h1 h2 h3 h4
    have e1 : String.length ⟨x⟩ = x.length := rfl
    have e2 : (⟨x⟩ : String).data = x := rfl
    simp only [slugClaimOk, e1, e2, Bool.and_eq_true, List.all_eq_true, bne_iff_ne,
      decide_eq_true_eq, ne_eq]
    refine ⟨⟨⟨h1, h2⟩, ?_⟩, ?_⟩
    · intro heq
      exact h3 '-' heq rfl
    · intro heq
      exact h4 '-' heq rfl
  by_cases hbig : 15 < s6.length
  · rw [if_pos hbig]
    have h15 : (s6.take 15).length = 15 := by
      rw [List.length_take]
      exact Nat.min_eq_left (by omega)
    by_cases hlast : (s6.take 15).getLast? = some '-'
    · have hcond : ((s6.take 15).getLast? == some '-') = true := by simp [hlast]
      show slugClaimOk ⟨if (s6.take 15).getLast? == some '-' then
        (s6.take 15).dropLast else s6.take 15⟩ = true
      rw [if_pos hcond]
      apply hok
      · rw [List.dropLast_eq_take, List.length_take, h15]
        decide
      · intro c hc
        rw [List.dropLast_eq_take] at hc
        exact hchar c (List.take_subset _ _ (List.take_subset _ _ hc))
      · intro c hc
        rw [List.dropLast_eq_take, h15] at hc
        rw [head?_take' (by omega), head?_take' (by omega)] at hc
        exact hh c hc
      · exact dropLast_getLast_ne _ (noDH_take s6 15 hnd) hlast
    · have hcond : ¬(((s6.take 15).getLast? == some '-') = true) := by simp [hlast]
      show slugClaimOk ⟨if (s6.take 15).getLast? == some '-' then
        (s6.take 15).dropLast else s6.take 15⟩ = true
      rw [if_neg hcond]
      apply hok
      · omega
      · intro c hc
        exact hchar c (List.take_subset _ _ hc)
      · intro c hc
        rw [head?_take' (by omega)] at hc
        exact hh c hc
      · intro c hc hc2
        subst hc2
        exact hlast hc
  · rw [if_neg hbig]
    exact hok s6 (by omega) hchar hh hl

/-- C3 counterexample: the slug returned by the generator for the second
of two identical 16-character headings is `abcdefghijklmno-1`, which has
length 17 and so violates the claimed 15-character bound on returned
slugs. -/
theorem claim_C3_counterexample :
    slugifyRun ["Abcdefghijklmnop", "Abcdefghijklmnop"]
      = ["abcdefghijklmno", "abcdefghijklmno-1"] ∧
    slugClaimOk "abcdefghijklmno-1" = false := by
  constructor
  · decide
  · decide

/-- C3 (amended): the BASE slug - the value computed by `slugify` prior to
uniqueness suffixing - always has length at most 15, contains only
lowercase letters, digits, underscore and hyphen, and has no leading or
trailing hyphen.  (The returned slug may additionally carry a `-N`
uniqueness suffix, which can push it past 15 characters.) -/
theorem claim_C3 (text : String) : slugClaimOk (slugBase text) = true := by
  obtain ⟨h1, h2, h3, h4⟩ := s6_props
    (replaceAll "&amp;".data "&".data (replaceAll "&nbsp;".data " ".data text.data))
    _ _ _ rfl rfl rfl
  exact slugOk_of_props _ h1 h2 h3 h4

/-- Witness for C3 (amended): evaluated at a concrete heading text. -/
theorem claim_C3_witness : slugClaimOk (slugBase "Hello &amp; Welcome") = true :=
  claim_C3 "Hello &amp; Welcome"

/-- C4 counterexample: the first heading whose text normalizes to the
empty string receives the EMPTY slug (the empty base is simply not in the
used set yet), contradicting the claimed non-emptiness. -/
theorem claim_C4_counterexample : slugify [] "" = "" := rfl

theorem candidate_succ_ne_empty (slug : String) (k : Nat) : candidate slug (k + 1) ≠ "" := by
  intro h
  have hl := congrArg String.length h
  rw [show candidate slug (k + 1) = slug ++ "-" ++ Nat.repr (k + 1) from rfl] at hl
  rw [String.length_append, String.length_append] at hl
  have h1 : ("-" : String).length = 1 := rfl
  have h2 : ("" : String).length = 0 := rfl
  omega

/-- C4 (amended): the slug returned by the generator is empty exactly when
the heading text normalizes to the empty base slug AND the empty string is
not yet in the used set (i.e. for the first empty-base heading of a run);
in every other case - nonempty base, or empty base already used - the
returned slug is non-empty.  Distinctness is claim C2. -/
theorem claim_C4 (used : List String) (text : String) :
    slugify used text = "" ↔ (slugBase text = "" ∧ "" ∉ used) := by
  constructor
  · intro h
    have hnm := slugify_not_mem used text
    rw [h] at hnm
    refine ⟨?_, hnm⟩
    unfold slugify at h
    rcases hk : findFree used (slugBase text) (used.length + 1) 0 with _ | j
    · rw [hk] at h
      exact h
    · rw [hk] at h
      exact absurd h (candidate_succ_ne_empty _ j)
  · rintro ⟨hb, hnm⟩
    unfold slugify
    rw [hb]
    have hc : used.contains (candidate "" 0) = false := by
      rw [candidate_zero]
      by_contra hx
      simp only [Bool.not_eq_false] at hx
      exact hnm ((contains_eq_true_iff used _).mp hx)
    rw [findFree, hc]
    rfl

/-! ### Claim C6: headings that already carry `id=` produce no edits -/

theorem addIdsLoop_all_id : ∀ (ms : List HMatch) (used : List String),
    (∀ m ∈ ms, containsL "id=".data m.attrs = true) → addIdsLoop ms used = [] := by
  intro ms
  induction ms with
  | nil => intro used _; rfl
  | cons m ms ih =>
    intro used hall
    rw [addIdsLoop, if_pos (hall m (List.mem_cons_self _ _))]
    exact ih used (fun m' hm' => hall m' (List.mem_cons_of_mem _ hm'))

/-- C6: on a document where every heading matched by the scanner already
declares an id (its attribute capture contains the substring `id=`), the
id-assignment operation emits an empty edit list. -/
theorem claim_C6 (levels : List String) (text : String)
    (h : ∀ m ∈ headerScan levels text, containsL "id=".data m.attrs = true) :
    addIdsEdits levels text = [] := by
  unfold addIdsEdits
  exact addIdsLoop_all_id _ [] (fun m hm => h m (List.mem_reverse.mp hm))

/-- Witness for C6 at a concrete two-heading document. -/
theorem claim_C6_witness :
    (∀ m ∈ headerScan ["1", "2"] "<h1 id=\"a\">x</h1><h2 id=\"b\">y</h2>",
        containsL "id=".data m.attrs = true) ∧
      addIdsEdits ["1", "2"] "<h1 id=\"a\">x</h1><h2 id=\"b\">y</h2>" = [] :=
  ⟨by decide, claim_C6 ["1", "2"] "<h1 id=\"a\">x</h1><h2 id=\"b\">y</h2>" (by decide)⟩

/-! ### Claim C9: shape of the replacement emitted for an id-less heading -/

/-- C9 counterexample: on `<H1>Hi</H1>` (uppercase tag) the emitted
replacement is `<h1 id="hi">Hi</h1>` - the tags are rebuilt with a
lowercase `h` - whereas the claim predicts the original opening tag with
the id appended and the original closing tag reproduced character for
character, i.e. `<H1 id="hi">Hi</H1>`. -/
theorem claim_C9_counterexample :
    (addIdsEdits ["1", "2"] "<H1>Hi</H1>").map Edit.newText = ["<h1 id=\"hi\">Hi</h1>".data] ∧
    (headerScan ["1", "2"] "<H1>Hi</H1>").map (fun m => specIdReplacement m "hi")
      = ["<H1 id=\"hi\">Hi</H1>".data] ∧
    "<h1 id=\"hi\">Hi</h1>".data ≠ "<H1 id=\"hi\">Hi</H1>".data := by
  refine ⟨by decide, by decide, by decide⟩

/-- C9 (amended): for a match whose tag letters are lowercase (`tagChar`
is `h` and the closing tag is literally `</h` ++ level ++ `>`), the
replacement built for the emitted edit is exactly the original opening tag
with ` id="<slug>"` appended after the existing attributes, followed by
the unchanged inner content and the unchanged closing tag. -/
theorem claim_C9 (m : HMatch) (id : String) (hc : m.tagChar = 'h')
    (hcl : m.closeTag = "</h".data ++ m.tagType ++ ">".data) :
    addIdReplacement m id = specIdReplacement m id := by
  unfold addIdReplacement specIdReplacement
  rw [hc, hcl]
  simp

/-- Witness for C9 (amended) at a concrete lowercase match. -/
theorem claim_C9_witness :
    addIdReplacement
        { index := 0, tagChar := 'h', tagType := "1".data, attrs := [],
          inner := "Hi".data, closeTag := "</h1>".data } "hi"
      = specIdReplacement
          { index := 0, tagChar := 'h', tagType := "1".data, attrs := [],
            inner := "Hi".data, closeTag := "</h1>".data } "hi" :=
  claim_C9 _ "hi" rfl (by decide)

/-! ### Claim C10: `class=` without a double-quoted value gets no edit -/

/-- C10: a heading whose attribute capture contains the substring `class=`
but on which the class regex `/class="([^"]*)"/i` finds no match (no
double-quoted class value) receives no edit from the no-TOC marking
operation. -/
theorem claim_C10 (m : HMatch)
    (h1 : containsL "class=".data m.attrs = true)
    (h2 : classMatchAt m.attrs = none) :
    markReplacement m = none := by
  unfold markReplacement
  rw [h1, h2]
  simp

/-- Witness for C10: an unquoted class attribute value. -/
theorem claim_C10_witness :
    markReplacement
        { index := 0, tagChar := 'h', tagType := "1".data,
          attrs := " class=x".data, inner := "T".data, closeTag := "</h1>".data }
      = none :=
  claim_C10 _ (by decide) (by decide)

/-! ### Claim C1: multi-class no-toc values are NOT excluded from the TOC -/

/-- C1 (evaluation of the code at the failing input): the TOC skip test is
the exact substring `class="no-toc"`, so a heading with
`class="foo no-toc bar"` is *not* skipped - the command emits a linked
list item for it (and its level drives the nesting), while the claim says
the heading is excluded entirely. -/
theorem claim_C1 :
    createTOCText ["1", "2"] "<h1 class=\"foo no-toc bar\" id=\"x\">T</h1>"
      = some "<ul>\n  <li><a href=\"#x\">T</a></li>\n  </ul>" := by
  decide

/-! ### Claim C5: the nesting loop of the TOC builder -/

theorem isPrefixL_append_left : ∀ (p t x : List Char), p.length ≤ t.length →
    isPrefixL p (t ++ x) = isPrefixL p t := by
  intro p
  induction p with
  | nil => intro t x _; rfl
  | cons a p ih =>
    intro t x h
    match t with
    | [] => simp at h
    | b :: t =>
      rw [List.cons_append]
      show (a == b && isPrefixL p (t ++ x)) = (a == b && isPrefixL p t)
      rw [ih t x (by simpa using h)]

theorem isSuffixL_append_right (pat x t : List Char) (h : pat.length ≤ t.length) :
    isSuffixL pat (x ++ t) = isSuffixL pat t := by
  unfold isSuffixL
  rw [List.reverse_append]
  exact isPrefixL_append_left _ _ _ (by simpa using h)

theorem closeLine_class (k : Nat) :
    isSuffixL "</ul>".data (indentStr k ++ "</ul>".data) = true ∧
      isSuffixL "<ul>".data (indentStr k ++ "</ul>".data) = false := by
  constructor
  · rw [isSuffixL_append_right _ _ _ (by decide)]
    decide
  · rw [isSuffixL_append_right _ _ _ (by decide)]
    decide

theorem openLine_class (k : Nat) :
    isSuffixL "<ul>".data (indentStr k ++ "<ul>".data) = true ∧
      isSuffixL "</ul>".data (indentStr k ++ "<ul>".data) = false := by
  constructor
  · rw [isSuffixL_append_right _ _ _ (by decide)]
    decide
  · match k with
    | 0 => decide
    | k + 1 =>
      have he : indentStr (k + 1) ++ "<ul>".data
          = List.replicate (2 * k + 1) ' ' ++ (' ' :: "<ul>".data) := by
        unfold indentStr
        rw [show 2 * (k + 1) = (2 * k + 1) + 1 by omega, List.replicate_succ']
        simp
      rw [he, isSuffixL_append_right _ _ _ (by decide)]
      decide

theorem itemLine_class (lvl : Nat) (id txt : List Char) :
    isSuffixL "</ul>".data (tocItem lvl id txt) = false ∧
      isSuffixL "<ul>".data (tocItem lvl id txt) = false := by
  unfold tocItem
  constructor
  · rw [isSuffixL_append_right _ _ _ (by decide)]
    decide
  · rw [isSuffixL_append_right _ _ _ (by decide)]
    decide

theorem closeWhile_counts (cur : Nat) : ∀ (last : Nat),
    (closeWhile cur last).countP (isSuffixL "</ul>".data) = last - cur ∧
      (closeWhile cur last).countP (isSuffixL "<ul>".data) = 0 := by
  intro last
  induction last with
  | zero =>
    constructor
    · rw [show closeWhile cur 0 = [] from rfl, List.countP_nil]
      omega
    · rfl
  | succ l ih =>
    rw [closeWhile]
    by_cases hc : cur < l + 1
    · rw [if_pos hc]
      obtain ⟨ih1, ih2⟩ := ih
      obtain ⟨hl1, hl2⟩ := closeLine_class (l + 1)
      rw [List.countP_cons, List.countP_cons, ih1, ih2, hl1, hl2]
      simp
      omega
    · rw [if_neg hc]
      refine ⟨?_, rfl⟩
      show 0 = l + 1 - cur
      omega

theorem openWhileAux_counts (cur : Nat) : ∀ (f last : Nat), last + f ≤ cur →
    (openWhileAux cur f last).countP (isSuffixL "<ul>".data) = f ∧
      (openWhileAux cur f last).countP (isSuffixL "</ul>".data) = 0 := by
  intro f
  induction f with
  | zero => intro last _; exact ⟨rfl, rfl⟩
  | succ f ih =>
    intro last h
    rw [openWhileAux, if_pos (by omega)]
    obtain ⟨ih1, ih2⟩ := ih (last + 1) (by omega)
    obtain ⟨hl1, hl2⟩ := openLine_class last
    rw [List.countP_cons, List.countP_cons, ih1, ih2, hl1, hl2]
    simp

theorem openWhile_counts (cur last : Nat) :
    (openWhile cur last).countP (isSuffixL "<ul>".data) = cur - last ∧
      (openWhile cur last).countP (isSuffixL "</ul>".data) = 0 := by
  unfold openWhile
  by_cases h : last ≤ cur
  · exact openWhileAux_counts cur (cur - last) last (by omega)
  · rw [show cur - last = 0 by omega]
    exact ⟨rfl, rfl⟩

theorem tocLoop_balance : ∀ (ms : List TMatch) (last : Nat),
    (tocLoop ms last).countP (isSuffixL "</ul>".data)
      = (tocLoop ms last).countP (isSuffixL "<ul>".data) + last := by
  intro ms
  induction ms with
  | nil =>
    intro last
    show (closeWhile 0 last).countP _ = (closeWhile 0 last).countP _ + last
    obtain ⟨h1, h2⟩ := closeWhile_counts 0 last
    rw [h1, h2]
    omega
  | cons m ms ih =>
    intro last
    rw [tocLoop]
    by_cases hskip : containsL "class=\"no-toc\"".data (m.attrs1 ++ m.attrs2) = true
    · rw [if_pos hskip]
      exact ih last
    · rw [if_neg hskip]
      rw [List.countP_append, List.countP_append, List.countP_append,
          List.countP_append, List.countP_append, List.countP_append]
      obtain ⟨c1, c2⟩ := closeWhile_counts (parseIntNat m.tagType) last
      obtain ⟨o1, o2⟩ := openWhile_counts (parseIntNat m.tagType) last
      obtain ⟨i1, i2⟩ := itemLine_class (parseIntNat m.tagType) m.idAttr (cleanText m.inner)
      have hrec := ih (parseIntNat m.tagType)
      rw [c1, c2, o1, o2, List.countP_cons, List.countP_nil, List.countP_cons,
          List.countP_nil, i1, i2]
      omega

/-- C5: the TOC nesting over the ordered surviving (level, id, text)
sequence: on levels [1,2,3,2,1] with ids a..e the loop emits exactly
open, item a, open, item b, open, item c, close, item d, close, item e,
close; a level-4 heading directly after a level-1 heading opens three
levels at once; and on every match list the emitted `<ul>` openers and
`</ul>` closers are balanced. -/
theorem claim_C5 :
    (tocLoop [plainT "1" "a", plainT "2" "b", plainT "3" "c", plainT "2" "d", plainT "1" "e"] 0
      = ["<ul>".data, "  <li><a href=\"#a\">a</a></li>".data, "  <ul>".data,
         "    <li><a href=\"#b\">b</a></li>".data, "    <ul>".data,
         "      <li><a href=\"#c\">c</a></li>".data, "      </ul>".data,
         "    <li><a href=\"#d\">d</a></li>".data, "    </ul>".data,
         "  <li><a href=\"#e\">e</a></li>".data, "  </ul>".data]) ∧
    (tocLoop [plainT "1" "x", plainT "4" "y"] 0
      = ["<ul>".data, "  <li><a href=\"#x\">x</a></li>".data, "  <ul>".data, "    <ul>".data,
         "      <ul>".data, "        <li><a href=\"#y\">y</a></li>".data, "        </ul>".data,
         "      </ul>".data, "    </ul>".data, "  </ul>".data]) ∧
    ∀ ms : List TMatch, (tocLoop ms 0).countP (isSuffixL "</ul>".data)
        = (tocLoop ms 0).countP (isSuffixL "<ul>".data) := by
  refine ⟨by decide, by decide, fun ms => ?_⟩
  have h := tocLoop_balance ms 0
  omega

/-! ### Claim C7: the marking operation is not idempotent -/

/-- C7 (evaluation of the code at the failing input): `String.replace`
expands `$`-patterns in its replacement string, and the replacement string
embeds the class value taken from the document.  On a heading whose class
value contains `$&`, the first marking run corrupts the class attribute,
and a second run changes the text AGAIN, so marking is not idempotent. -/
theorem claim_C7 :
    markNoTocText ["1", "2"] "<h1 class=\"a$&b\">x</h1>"
      = "<h1 class=\"aclass=\"a$&b\"b no-toc\">x</h1>" ∧
    markNoTocText ["1", "2"] (markNoTocText ["1", "2"] "<h1 class=\"a$&b\">x</h1>")
      ≠ markNoTocText ["1", "2"] "<h1 class=\"a$&b\">x</h1>" := by
  refine ⟨by decide, by decide⟩

/-! ### Claim C8: the degenerate scan with an empty level set -/

/-- C8 counterexample: an all-invalid configured list yields the empty
level set, and with the empty level set the degenerate regex
`<h()([^>]*)>([\s\S]*?)<\/h\1>` still matches: on `<hi>x</h>` the scanner
returns one match instead of the claimed zero. -/
theorem claim_C8_counterexample :
    getHeadersToProcess (some ["7"]) = [] ∧
    headerScan [] "<hi>x</h>" =
      [{ index := 0, tagChar := 'h', tagType := [], attrs := "i".data,
         inner := "x".data, closeTag := "</h>".data }] := by
  refine ⟨by decide, by decide⟩

theorem ciContainsL_cons (pat : List Char) (c : Char) (s : List Char)
    (h : ciContainsL pat s = true) : ciContainsL pat (c :: s) = true := by
  rw [ciContainsL, h]
  simp

theorem ciContains_of_suffix (pat : List Char) {t s : List Char} (hsuf : t <:+ s)
    (h : ciContainsL pat t = true) : ciContainsL pat s = true := by
  obtain ⟨pre, rfl⟩ := hsuf
  induction pre with
  | nil => simpa using h
  | cons c pre ih => exact ciContainsL_cons _ _ _ ih

theorem findClose_ciContains (lvl : List Char) :
    ∀ (s inner cl rest : List Char), findClose lvl s = some (inner, cl, rest) →
      ciContainsL (closeLit lvl) s = true := by
  intro s
  induction s with
  | nil => intro inner cl rest h; cases h
  | cons c s ih =>
    intro inner cl rest h
    rw [findClose] at h
    by_cases hp : ciPrefixL (closeLit lvl) (c :: s) = true
    · rw [ciContainsL, hp]
      simp
    · rw [if_neg hp] at h
      rcases hrec : findClose lvl s with _ | ⟨i2, c2, r2⟩
      · rw [hrec] at h
        cases h
      · rw [ciContainsL, ih i2 c2 r2 hrec]
        simp

theorem matchAt_nil_ciContains (s : List Char) (m : HMatch) (rest : List Char)
    (h : matchAt [] s = some (m, rest)) :
    ciContainsL "</h>".data s = true := by
  rw [matchAt.eq_def] at h
  split at h
  case h_2 => cases h
  case h_1 c1 rest1 =>
    split at h
    case isFalse => cases h
    case isTrue hc1 =>
      simp only [levelAlt] at h
      split at h
      case h_2 => cases h
      case h_1 rest4 heq =>
        split at h
        case h_2 => cases h
        case h_1 inner cl rest5 heqc =>
          have hcl : closeLit [] = "</h>".data := rfl
          have h1 : ciContainsL "</h>".data rest4 = true := by
            rw [← hcl]
            exact findClose_ciContains [] rest4 inner cl rest5 heqc
          have h2 : ciContainsL "</h>".data ('>' :: rest4) = true :=
            ciContainsL_cons _ _ _ h1
          have hsuf : ('>' :: rest4) <:+ rest1 := by
            rw [← heq]
            exact List.dropWhile_suffix _
          have h3 := ciContains_of_suffix _ hsuf h2
          exact ciContainsL_cons _ _ _ (ciContainsL_cons _ _ _ h3)

theorem scanAux_nil_of_no_close :
    ∀ (fuel pos : Nat) (s : List Char), ciContainsL "</h>".data s = false →
      scanAux [] fuel pos s = [] := by
  intro fuel
  induction fuel with
  | zero => intro pos s _; rfl
  | succ f ih =>
    intro pos s hnc
    match s with
    | [] => rfl
    | c :: s =>
      rw [scanAux]
      rcases hm : matchAt [] (c :: s) with _ | ⟨m, rest⟩
      · show scanAux [] f (pos + 1) s = []
        apply ih
        rw [ciContainsL] at hnc
        exact (Bool.or_eq_false_iff.mp hnc).2
      · exact absurd (matchAt_nil_ciContains _ _ _ hm) (by rw [hnc]; simp)

/-- C8 (amended): with the empty configured level set the scanner's
alternation group matches the empty string, so the scan can still match
(see the counterexample); it is guaranteed to yield zero matches only on
documents with no case-insensitive occurrence of the degenerate closing
tag `</h>`. -/
theorem claim_C8 (text : String) (h : ciContainsL "</h>".data text.data = false) :
    headerScan [] text = [] :=
  scanAux_nil_of_no_close _ _ _ h

/-- Witness for C8 (amended): a document with headings but no literal
`</h>` sequence. -/
theorem claim_C8_witness :
    ciContainsL "</h>".data ("hello <h1>x</h1>" : String).data = false ∧
      headerScan [] "hello <h1>x</h1>" = [] :=
  ⟨by decide, claim_C8 "hello <h1>x</h1>" (by decide)⟩

end HtmlAutoHeaderIds
